import Mathlib

/-!
Verification of the tool-call detection, dispatch and conversation loop of the
Ollamaton MCP client (`ollama_integration.js`, `mcp_client.js`).

JS strings are modelled as `List Char`; JS `indexOf` returning `-1` is modelled
as `Option Nat` returning `none`.  Fallible JS code (thrown exceptions) is
modelled with `Option`/`Except`.
-/

namespace Ollamaton

abbrev Str := List Char

/-- JS `String.prototype.indexOf(pat)` starting at logical index `i`
(helper; searches `s` and reports the absolute index of the first match). -/
def indexOfAux (pat : Str) : Str → Nat → Option Nat
  | s, i =>
    if pat.isPrefixOf s then some i
    else
      match s with
      | [] => none
      | _ :: rest => indexOfAux pat rest (i + 1)

/-- JS `text.indexOf(pat)`; `none` models the JS result `-1`. -/
def indexOfL (s pat : Str) : Option Nat := indexOfAux pat s 0

/-- JS `text.indexOf(pat, from)`. -/
def indexOfFromL (s pat : Str) (start : Nat) : Option Nat :=
  (indexOfAux pat (s.drop start) 0).map (· + start)

/-- Whitespace recognised by JS `String.prototype.trim` (ASCII part; the
exotic Unicode space classes never occur in the texts of interest). -/
def isJsTrimWs (c : Char) : Bool :=
  c = ' ' || c = '\t' || c = '\n' || c = '\r' || c = '\x0b' || c = '\x0c'

/-- JS `text.trim()`. -/
def trimL (s : Str) : Str :=
  ((s.dropWhile isJsTrimWs).reverse.dropWhile isJsTrimWs).reverse

/-- JS `text.substring(s, s + len)` (the contiguous substring primitive). -/
def substrAt (s : Str) (start len : Nat) : Str := (s.drop start).take len

/-- JS `list.join(sep)`. -/
def joinSep (sep : Str) : List Str → Str
  | [] => []
  | [x] => x
  | x :: xs => x ++ sep ++ joinSep sep xs

/-! ## JSON values and `JSON.parse`

JSON values as produced by `JSON.parse`.  Numbers keep their source lexeme:
no claim depends on numeric values, only on parse success/failure and on
truthiness, and this avoids modelling IEEE floats.  Object fields are kept
in parse order; on duplicate keys JS keeps the last binding, which is what
`jsonGet` implements. -/
inductive Json where
  | null : Json
  | bool (b : Bool) : Json
  | num (lexeme : Str) : Json
  | str (s : Str) : Json
  | arr (elems : List Json) : Json
  | obj (fields : List (Str × Json)) : Json

/-- JS property access `j[key]`; `none` models `undefined`
(absent key, or access on a non-object JSON value). -/
def jsonGet : Json → Str → Option Json
  | .obj fields, k => (fields.reverse.find? (fun p => p.1 == k)).map (·.2)
  | _, _ => none

/-- JSON whitespace (`ws` in ECMA-404: space, tab, LF, CR). -/
def isJsonWs (c : Char) : Bool :=
  c = ' ' || c = '\t' || c = '\n' || c = '\r'

def skipWs (s : Str) : Str := s.dropWhile isJsonWs

def isHexDigitC (c : Char) : Bool :=
  ('0' ≤ c && c ≤ '9') || ('a' ≤ c && c ≤ 'f') || ('A' ≤ c && c ≤ 'F')

def hexVal (c : Char) : Nat :=
  if '0' ≤ c && c ≤ '9' then c.toNat - '0'.toNat
  else if 'a' ≤ c && c ≤ 'f' then c.toNat - 'a'.toNat + 10
  else if 'A' ≤ c && c ≤ 'F' then c.toNat - 'A'.toNat + 10
  else 0

/-- Body of a JSON string literal, after the opening quote: returns the
decoded characters and the input after the closing quote.  `\uXXXX` escapes
are decoded through `Char.ofNat` (lone surrogates, which JS would keep as
raw UTF-16 units, are out of scope — no claim involves them). -/
def parseStringBody : Str → Option (Str × Str)
  | [] => none
  | '"' :: rest => some ([], rest)
  | '\\' :: esc =>
    match esc with
    | '"' :: r => (parseStringBody r).map (fun p => ('"' :: p.1, p.2))
    | '\\' :: r => (parseStringBody r).map (fun p => ('\\' :: p.1, p.2))
    | '/' :: r => (parseStringBody r).map (fun p => ('/' :: p.1, p.2))
    | 'b' :: r => (parseStringBody r).map (fun p => ('\x08' :: p.1, p.2))
    | 'f' :: r => (parseStringBody r).map (fun p => ('\x0c' :: p.1, p.2))
    | 'n' :: r => (parseStringBody r).map (fun p => ('\n' :: p.1, p.2))
    | 'r' :: r => (parseStringBody r).map (fun p => ('\r' :: p.1, p.2))
    | 't' :: r => (parseStringBody r).map (fun p => ('\t' :: p.1, p.2))
    | 'u' :: h1 :: h2 :: h3 :: h4 :: r =>
      if isHexDigitC h1 && isHexDigitC h2 && isHexDigitC h3 && isHexDigitC h4 then
        (parseStringBody r).map (fun p =>
          (Char.ofNat (((hexVal h1 * 16 + hexVal h2) * 16 + hexVal h3) * 16 + hexVal h4) :: p.1,
           p.2))
      else none
    | _ => none
  | c :: rest =>
    if c.toNat < 0x20 then none
    else (parseStringBody rest).map (fun p => (c :: p.1, p.2))

/-- Fractional part `.digits` (optional). Returns the consumed lexeme part. -/
def parseFracPart (s : Str) : Option (Str × Str) :=
  match s with
  | '.' :: r =>
    let ds := r.takeWhile Char.isDigit
    if ds = [] then none else some ('.' :: ds, r.drop ds.length)
  | _ => some ([], s)

/-- Exponent part `[eE][+-]?digits` (optional). -/
def parseExpPart (s : Str) : Option (Str × Str) :=
  match s with
  | c :: r =>
    if c = 'e' || c = 'E' then
      let (sign, r1) :=
        match r with
        | '+' :: r2 => (['+'], r2)
        | '-' :: r2 => (['-'], r2)
        | _ => (([] : Str), r)
      let ds := r1.takeWhile Char.isDigit
      if ds = [] then none else some (c :: sign ++ ds, r1.drop ds.length)
    else some ([], c :: r)
  | [] => some ([], [])

/-- JSON number: `-?(0|[1-9][0-9]*)(.[0-9]+)?([eE][+-]?[0-9]+)?`.
Returns the lexeme and the rest of the input. -/
def parseNumber (s : Str) : Option (Str × Str) :=
  let (neg, s1) : Str × Str :=
    match s with
    | '-' :: r => (['-'], r)
    | _ => ([], s)
  match s1 with
  | '0' :: r =>
    match parseFracPart r with
    | none => none
    | some (fr, r1) =>
      match parseExpPart r1 with
      | none => none
      | some (ex, r2) => some (neg ++ '0' :: fr ++ ex, r2)
  | c :: r =>
    if c.isDigit then
      let ds := r.takeWhile Char.isDigit
      match parseFracPart (r.drop ds.length) with
      | none => none
      | some (fr, r1) =>
        match parseExpPart r1 with
        | none => none
        | some (ex, r2) => some (neg ++ c :: ds ++ fr ++ ex, r2)
    else none
  | [] => none

mutual

/-- JSON value parser (recursive descent; `fuel` bounds nesting depth and is
always instantiated with more than the input length). The input is assumed
already stripped of leading whitespace. -/
def parseValue : Nat → Str → Option (Json × Str)
  | 0, _ => none
  | fuel + 1, s =>
    match s with
    | '\x7b' :: r => parseObjectBody fuel (skipWs r)
    | '[' :: r => parseArrayBody fuel (skipWs r)
    | '"' :: r => (parseStringBody r).map (fun p => (.str p.1, p.2))
    | 't' :: 'r' :: 'u' :: 'e' :: r => some (.bool true, r)
    | 'f' :: 'a' :: 'l' :: 's' :: 'e' :: r => some (.bool false, r)
    | 'n' :: 'u' :: 'l' :: 'l' :: r => some (.null, r)
    | _ => (parseNumber s).map (fun p => (.num p.1, p.2))

/-- After an opening brace and whitespace: empty object or member list. -/
def parseObjectBody : Nat → Str → Option (Json × Str)
  | 0, _ => none
  | fuel + 1, s =>
    match s with
    | '\x7d' :: r => some (.obj [], r)
    | _ => parseMembers fuel s []

/-- `"key" : value (, "key" : value)* }` with an accumulator. -/
def parseMembers : Nat → Str → List (Str × Json) → Option (Json × Str)
  | 0, _, _ => none
  | fuel + 1, s, acc =>
    match s with
    | '"' :: r =>
      match parseStringBody r with
      | none => none
      | some (key, r1) =>
        match skipWs r1 with
        | ':' :: r2 =>
          match parseValue fuel (skipWs r2) with
          | none => none
          | some (v, r3) =>
            match skipWs r3 with
            | ',' :: r4 => parseMembers fuel (skipWs r4) (acc ++ [(key, v)])
            | '\x7d' :: r4 => some (.obj (acc ++ [(key, v)]), r4)
            | _ => none
        | _ => none
    | _ => none

/-- After an opening bracket and whitespace: empty array or element list. -/
def parseArrayBody : Nat → Str → Option (Json × Str)
  | 0, _ => none
  | fuel + 1, s =>
    match s with
    | ']' :: r => some (.arr [], r)
    | _ => parseElements fuel s []

/-- `value (, value)* ]` with an accumulator. -/
def parseElements : Nat → Str → List Json → Option (Json × Str)
  | 0, _, _ => none
  | fuel + 1, s, acc =>
    match parseValue fuel s with
    | none => none
    | some (v, r) =>
      match skipWs r with
      | ',' :: r2 => parseElements fuel (skipWs r2) (acc ++ [v])
      | ']' :: r2 => some (.arr (acc ++ [v]), r2)
      | _ => none

end

/-- JS `JSON.parse(s)`: `none` models a thrown `SyntaxError`. -/
def jsonParse (s : Str) : Option Json :=
  match parseValue (s.length + 1) (skipWs s) with
  | some (v, rest) => if skipWs rest = [] then some v else none
  | none => none

/-! ## Tool-Call Interpreter (`OllamaWithMCP.isToolCall` / `parseToolCall`)

The start-index search, the balanced-brace scan and the substring extraction
are textually identical in `isToolCall` (lines 117–147) and `parseToolCall`
(lines 177–207) of `ollama_integration.js`; they are factored out here as
`findStartIndex`, `braceScanEnd` and `findToolCallJson`, used by both. -/

/-- The three literal anchor variants searched for, in order. -/
def toolCallAnchor1 : Str := "\x7b\"action\":\"tool_call\"".data

def toolCallAnchor2 : Str := "\x7b \"action\": \"tool_call\"".data

def toolCallAnchor3 : Str := "\x7b\n  \"action\": \"tool_call\"".data

/-- The backward loop `for (let i = actionIndex; i >= 0; i--)` looking for
the enclosing `'\x7b'`. -/
def backtrackBrace (text : Str) : Nat → Option Nat
  | 0 => if text.getD 0 ' ' = '\x7b' then some 0 else none
  | i + 1 =>
    if text.getD (i + 1) ' ' = '\x7b' then some (i + 1) else backtrackBrace text i

/-- `startIndex` computation: the three anchor `indexOf` probes, then the
flexible fallback that locates `"action"` and `"tool_call"` independently
and backtracks to the enclosing opening brace.  `none` models
`startIndex === -1`. -/
def findStartIndex (text : Str) : Option Nat :=
  match indexOfL text toolCallAnchor1 with
  | some i => some i
  | none =>
  match indexOfL text toolCallAnchor2 with
  | some i => some i
  | none =>
  match indexOfL text toolCallAnchor3 with
  | some i => some i
  | none =>
    match indexOfL text "\"action\"".data, indexOfL text "\"tool_call\"".data with
    | some ai, some _ => backtrackBrace text ai
    | _, _ => none

/-- The net effect of one character on `braceCount`: `+1` on an opening
brace (`braceCount++`), `-1` on a closing brace (`braceCount--`), `0`
otherwise. -/
def braceDelta (c : Char) : Int :=
  (if c = '\x7b' then 1 else 0) - (if c = '\x7d' then 1 else 0)

/-- The balanced-brace loop: `braceCount` starts at 0, is updated by
`braceDelta` at each position, and the loop breaks with `endIndex = i` as
soon as the count is 0 after processing position `i`. -/
def braceLoop : Str → Int → Nat → Option Nat
  | [], _, _ => none
  | c :: rest, count, i =>
    let count' := count + braceDelta c
    if count' = 0 then some i else braceLoop rest count' (i + 1)

/-- `endIndex` computation from a discovered `startIndex`; `none` models
`endIndex === -1` (no balanced closing brace found). -/
def braceScanEnd (text : Str) (start : Nat) : Option Nat :=
  braceLoop (text.drop start) 0 start

/-- The candidate `jsonText = text.substring(startIndex, endIndex + 1)`
selected by the shared scan, when both indices are found. -/
def findToolCallJson (text : Str) : Option Str :=
  match findStartIndex text with
  | none => none
  | some s =>
    match braceScanEnd text s with
    | none => none
    | some e => some (substrAt text s (e + 1 - s))

/-- Whether a JSON number lexeme denotes (numeric) zero: all mantissa digits
are `0`.  (Float underflow of tiny exponents to `0` is not modelled; no
claim involves numeric `tool` fields.) -/
def numLexIsZero (lex : Str) : Bool :=
  (lex.takeWhile (fun c => c != 'e' && c != 'E')).all (fun c => !c.isDigit || c = '0')

/-- JS truthiness of a property-access result (`undefined`, `null`, `false`,
`0`, `""` are falsy). -/
def jsTruthy : Option Json → Bool
  | none => false
  | some .null => false
  | some (.bool b) => b
  | some (.num lex) => !numLexIsZero lex
  | some (.str s) => !s.isEmpty
  | some (.arr _) => true
  | some (.obj _) => true

/-- The classification test applied to a parsed candidate:
`parsed.action === 'tool_call' && parsed.tool && parsed.args !== undefined`. -/
def isValidToolCall (j : Json) : Bool :=
  (match jsonGet j "action".data with
   | some (.str s) => s == "tool_call".data
   | _ => false)
  && jsTruthy (jsonGet j "tool".data)
  && (jsonGet j "args".data).isSome

/-- The final fallback of `isToolCall`: if the trimmed whole message is
brace-delimited, parse it and classify; a parse failure is caught by the
outer `try` and yields `false`. -/
def wholeFallback (text : Str) : Bool :=
  let trimmed := trimL text
  if (trimmed.take 1 == ['\x7b']) && (trimmed.reverse.take 1 == ['\x7d']) then
    match jsonParse trimmed with
    | some parsed => isValidToolCall parsed
    | none => false
  else false

/-- `OllamaWithMCP.isToolCall` (the `detect` operation).  Total: the JS body
is wrapped in `try ... catch { } return false`, so it never throws.  When the
scan finds a candidate that parses, its classification result is returned
directly; only a parse failure (or a failed scan) falls through to the
whole-message fallback. -/
def isToolCall (text : Str) : Bool :=
  match findToolCallJson text with
  | some jsonText =>
    match jsonParse jsonText with
    | some parsed => isValidToolCall parsed
    | none => wholeFallback text
  | none => wholeFallback text

/-- `OllamaWithMCP.parseToolCall` (the `extract` operation).  `Except`'s
`error` models a thrown exception: a `SyntaxError` from an unguarded
`JSON.parse` (modelled by a fixed engine-style message, which no claim
inspects) or the explicit `throw new Error('Could not parse tool call')`.
Note the order differs from `isToolCall`: the trimmed-whole-message branch
is tried FIRST, and none of the `JSON.parse` calls here is guarded. -/
def parseToolCall (text : Str) : Except Str Json :=
  let trimmed := trimL text
  if (trimmed.take 1 == ['\x7b']) && (trimmed.reverse.take 1 == ['\x7d']) then
    match jsonParse trimmed with
    | some parsed => .ok parsed
    | none => .error "Unexpected token in JSON".data
  else
    match findToolCallJson text with
    | some jsonText =>
      match jsonParse jsonText with
      | some parsed => .ok parsed
      | none => .error "Unexpected token in JSON".data
    | none => .error "Could not parse tool call".data

/-! ## Reasoning-markup stripping

`chat` cleans the second model reply with
`.replace(/<think>[\s\S]*?<\/think>/g, '').trim()`.  A global non-greedy
match removes, repeatedly, the span from the leftmost `<think>` that is
followed by a `</think>` up to the nearest such `</think>`, and resumes
after the removed span. -/

def thinkOpen : Str := "<think>".data

def thinkClose : Str := "</think>".data

/-- One pass of the global regex replace, with fuel (each step removes at
least 14 characters, so `s.length + 1` fuel always suffices). -/
def stripThinkFuel : Nat → Str → Str
  | 0, s => s
  | fuel + 1, s =>
    match indexOfL s thinkOpen with
    | none => s
    | some i =>
      match indexOfFromL s thinkClose (i + 7) with
      | none => s
      | some j => s.take i ++ stripThinkFuel fuel (s.drop (j + 8))

/-- `s.replace(/<think>[\s\S]*?<\/think>/g, '')`. -/
def stripThink (s : Str) : Str := stripThinkFuel (s.length + 1) s

/-! ## Tool Registry (`MCPManager`, `mcp_client.js`)

JS `Map`s are modelled as insertion-ordered association lists with JS `Map`
semantics: `set` on an existing key updates the value in place (keeping the
original insertion position), otherwise appends.  A backend's `Client`
object is identified by its server name (the `clients` map key), so the
stored `{ client, serverName, tool }` entry is modelled by
`(serverName, tool)`. -/

def mapSet {α : Type} (m : List (Str × α)) (k : Str) (v : α) : List (Str × α) :=
  if m.any (fun p => p.1 == k) then
    m.map (fun p => if p.1 == k then (k, v) else p)
  else m ++ [(k, v)]

def mapGet {α : Type} (m : List (Str × α)) (k : Str) : Option α :=
  (m.find? (fun p => p.1 == k)).map (·.2)

/-- A tool as returned by a backend's `listTools()`; `description` stands
for the rest of the descriptor payload and distinguishes descriptors. -/
structure Tool where
  name : Str
  description : Str

/-- The value stored in `MCPManager.tools` under a tool name. -/
structure ToolInfo where
  serverName : Str
  tool : Tool

instance : Inhabited Tool := ⟨⟨[], []⟩⟩

instance : Inhabited ToolInfo := ⟨⟨[], default⟩⟩

abbrev ToolMap := List (Str × ToolInfo)

/-- `MCPManager.loadAllTools`: for each connected server (in `clients`-map
order) request the tool catalog (the per-server oracle `listTools`; `.error`
models a thrown/rejected request, which is logged and skipped) and register
every tool with `this.tools.set(tool.name, {client, serverName, tool})` —
so on colliding names the last registration wins. -/
def loadAllTools (clients : List Str) (listTools : Str → Except Unit (List Tool))
    (tools0 : ToolMap) : ToolMap :=
  clients.foldl (fun m serverName =>
    match listTools serverName with
    | .ok ts => ts.foldl (fun m t => mapSet m t.name ⟨serverName, t⟩) m
    | .error _ => m) tools0

/-- The resolution step of `MCPManager.callTool`: `this.tools.get(toolName)`;
`none` models the thrown `Tool '...' not found`. -/
def callToolLookup (tools : ToolMap) (toolName : Str) : Option ToolInfo :=
  mapGet tools toolName

/-- The resolution step of `MCPManager.callToolOnServer`:
`Array.from(this.tools.values()).find(t => t.serverName === serverName &&
t.tool.name === toolName)`; `none` models the thrown
`Tool '...' not found on server '...'`. -/
def callToolOnServerLookup (tools : ToolMap) (serverName toolName : Str) :
    Option ToolInfo :=
  (tools.map (·.2)).find?
    (fun t => t.serverName == serverName && t.tool.name == toolName)

/-- A resource as returned by a backend's `listResources()`. -/
structure Resource where
  uri : Str
  description : Str

structure ResourceInfo where
  serverName : Str
  resource : Resource

abbrev ResourceMap := List (Str × ResourceInfo)

/-- A JSON-RPC style error carried by a rejected `listResources()` call. -/
structure RpcError where
  code : Int
  message : Str

/-- `MCPManager.loadAllResources`: per server, request the resource catalog;
on success register each resource under its URI; on failure, log the server
(modelled by appending it to the error log) unless the error code is
`-32601` ("method not found"), which is silently ignored.  The catch makes
every failure non-fatal: the fold always continues with the next server. -/
def loadAllResources (clients : List Str)
    (listResources : Str → Except RpcError (List Resource))
    (res0 : ResourceMap) (log0 : List Str) : ResourceMap × List Str :=
  clients.foldl (fun st serverName =>
    match listResources serverName with
    | .ok rs => (rs.foldl (fun m r => mapSet m r.uri ⟨serverName, r⟩) st.1, st.2)
    | .error e =>
      if e.code ≠ -32601 then (st.1, st.2 ++ [serverName]) else st)
    (res0, log0)

/-- The resource list reported for one server by `MCPManager.getServerInfo`. -/
def getServerResources (resources : ResourceMap) (serverName : Str) : List Str :=
  (resources.filter (fun p => p.2.serverName == serverName)).map (·.1)

/-! ## Conversation Orchestrator (`OllamaWithMCP.chat` / `streamChat`)

The two external suspension points are modelled by oracles carried in the
environment: `model` maps an outbound message list to the model's full reply
text (for `streamChat` this is the concatenation of the streamed chunks),
and `callTool` maps the extracted `toolCall.tool` / `toolCall.args` values
to either an error message or the tool result.  The external tool-result
object is modelled by its `JSON.stringify(·, null, 2)` serialization, which
is how the orchestrator consumes it. -/

inductive Role where
  | system : Role
  | user : Role
  | assistant : Role
deriving DecidableEq

structure Turn where
  role : Role
  content : Str
deriving DecidableEq

structure ChatEnv where
  /-- `instructions.system`. -/
  system : Str
  /-- `instructions.followUp` (contains the `\x7bTOOL_RESULT\x7d` placeholder). -/
  followUp : Str
  /-- `mcp.getAvailableTools()`. -/
  tools : List Str
  /-- `mcp.getAvailableResources()`. -/
  resources : List Str
  /-- Model oracle: reply content for an outbound message list. -/
  model : List Turn → Str
  /-- Tool oracle: `mcp.callTool(toolCall.tool, toolCall.args)`; `.error`
  models a rejected call carrying `error.message`, `.ok` the serialized
  tool result. -/
  callTool : Option Json → Option Json → Except Str Str

/-- The system turn built at the top of `chat` and `streamChat`. -/
def systemTurn (env : ChatEnv) : Turn :=
  ⟨.system,
    env.system ++ "\n\nAvailable tools: ".data ++ joinSep ", ".data env.tools
      ++ "\nAvailable resources: ".data ++ joinSep ", ".data env.resources⟩

/-- JS `s.replace(pat, repl)` with a plain-string pattern: replaces the
first occurrence only.  (`$`-substitution patterns in the replacement are
not modelled; no claim involves them.) -/
def replaceFirst (s pat repl : Str) : Str :=
  match indexOfL s pat with
  | none => s
  | some i => s.take i ++ repl ++ s.drop (i + pat.length)

/-- The history trim `if (length > 20) history = history.slice(-20)`. -/
def trimHistory (h : List Turn) : List Turn :=
  if h.length > 20 then h.drop (h.length - 20) else h

mutual

/-- JS `String(v)` / template-literal conversion of a JSON value (number
lexemes approximate JS float canonicalization, which no claim inspects). -/
def jsToString : Json → Str
  | .null => "null".data
  | .bool b => if b then "true".data else "false".data
  | .num lex => lex
  | .str s => s
  | .obj _ => "[object Object]".data
  | .arr xs => joinSep ",".data (jsArrayElems xs)

/-- Array elements for `Array.prototype.toString`: `null` renders empty. -/
def jsArrayElems : List Json → List Str
  | [] => []
  | .null :: rest => [] :: jsArrayElems rest
  | v :: rest => jsToString v :: jsArrayElems rest

end

/-- Template-literal conversion of a property access result. -/
def jsToStringOpt : Option Json → Str
  | none => "undefined".data
  | some v => jsToString v

/-- The structured value returned by `chat`. -/
inductive ChatResult where
  /-- `{response, toolUsed: null}` (no tool directive detected). -/
  | normal (response : Str) : ChatResult
  /-- `{toolUsed, toolResult, finalResponse, rawResponse}`. -/
  | toolOk (toolUsed : Option Json) (toolResult : Str) (finalResponse : Str)
      (rawResponse : Str) : ChatResult
  /-- `{error, rawResponse}` from the catch block. -/
  | err (error : Str) (rawResponse : Str) : ChatResult

/-- What one `chat`/`streamChat` call produced: the returned value, the
`conversationHistory` afterwards, and the outbound prompts sent to the
model (so the number of model invocations is `prompts.length`). -/
structure ChatStep where
  result : ChatResult
  history : List Turn
  prompts : List (List Turn)

/-- `OllamaWithMCP.chat`, with the `conversationHistory` field passed and
returned explicitly.  The function is total: every failure inside the
tool-call branch (extraction or tool invocation) is caught by the JS
`catch` and converted into the `.err` result, never rethrown. -/
def chat (env : ChatEnv) (history : List Turn) (message : Str) : ChatStep :=
  let messages := systemTurn env :: history ++ [⟨.user, message⟩]
  let assistantMessage := env.model messages
  if isToolCall assistantMessage then
    match parseToolCall assistantMessage with
    | .ok toolCall =>
      match env.callTool (jsonGet toolCall "tool".data) (jsonGet toolCall "args".data) with
      | .ok toolResult =>
        let followUpTurn : Turn :=
          ⟨.user, replaceFirst env.followUp "\x7bTOOL_RESULT\x7d".data toolResult⟩
        let messages2 := messages ++ [⟨.assistant, assistantMessage⟩, followUpTurn]
        let cleanedResponse := trimL (stripThink (env.model messages2))
        let newHistory := trimHistory (history ++
          [⟨.user, message⟩,
           ⟨.assistant, "Used tool ".data ++ jsToStringOpt (jsonGet toolCall "tool".data)
              ++ " with result: ".data ++ cleanedResponse⟩])
        ⟨.toolOk (jsonGet toolCall "tool".data) toolResult cleanedResponse assistantMessage,
         newHistory, [messages, messages2]⟩
      | .error emsg =>
        ⟨.err ("Tool call failed: ".data ++ emsg) assistantMessage,
         history ++ [⟨.user, message⟩, ⟨.assistant, "Error: ".data ++ emsg⟩],
         [messages]⟩
    | .error emsg =>
      ⟨.err ("Tool call failed: ".data ++ emsg) assistantMessage,
       history ++ [⟨.user, message⟩, ⟨.assistant, "Error: ".data ++ emsg⟩],
       [messages]⟩
  else
    ⟨.normal assistantMessage,
     trimHistory (history ++ [⟨.user, message⟩, ⟨.assistant, assistantMessage⟩]),
     [messages]⟩

/-- What one `streamChat` call produced. -/
structure StreamStep where
  response : Str
  history : List Turn
  prompts : List (List Turn)

/-- `OllamaWithMCP.streamChat`: builds a prompt of just the system turn and
the new user turn, streams the reply (modelled by the full concatenated
content), and returns it; `conversationHistory` is never read or written. -/
def streamChat (env : ChatEnv) (history : List Turn) (message : Str) : StreamStep :=
  let messages := [systemTurn env, ⟨.user, message⟩]
  ⟨env.model messages, history, [messages]⟩

/-- A sequence of `chat` calls on one instance, threading the history. -/
def runChats (env : ChatEnv) (history : List Turn) : List Str → List Turn
  | [] => history
  | m :: ms => runChats env (chat env history m).history ms

/-! ## Concrete scenarios used by witnesses and counterexamples -/

/-- A minimal well-formed tool directive. -/
def tcDirective : Str := "\x7b\"action\":\"tool_call\",\"tool\":\"t\",\"args\":\x7b\x7d\x7d".data

/-- Its parse. -/
def tcJson : Json :=
  .obj [("action".data, .str "tool_call".data), ("tool".data, .str "t".data),
        ("args".data, .obj [])]

/-- An environment whose model always requests the tool and whose tool
invocation always fails. -/
def envToolFail : ChatEnv where
  system := "You are helpful.".data
  followUp := "Tool result: \x7bTOOL_RESULT\x7d Please answer.".data
  tools := ["t".data]
  resources := []
  model := fun _ => tcDirective
  callTool := fun _ _ => .error "boom".data

/-- A second model reply around which the think-strip splices new marker
text together. -/
def splicedReply : Str := "<t<think>z</think>hink>abc</think>".data

/-- An environment whose first reply is the tool directive, whose tool call
succeeds, and whose second reply is `splicedReply`. -/
def envSplice : ChatEnv :=
  { envToolFail with
    model := fun ms => if ms.length ≤ 2 then tcDirective else splicedReply,
    callTool := fun _ _ => .ok "42".data }

/-- The spec's worked example text. -/
def romeText : Str :=
  "Sure! \x7b\"action\":\"tool_call\",\"tool\":\"get_current_weather\",\"args\":\x7b\"city\":\"Rome\"\x7d\x7d Hope that helps.".data

/-- The same directive with the surrounding prose removed. -/
def romeBare : Str :=
  "\x7b\"action\":\"tool_call\",\"tool\":\"get_current_weather\",\"args\":\x7b\"city\":\"Rome\"\x7d\x7d".data

/-- The invocation extracted from `romeText`. -/
def romeJson : Json :=
  .obj [("action".data, .str "tool_call".data),
        ("tool".data, .str "get_current_weather".data),
        ("args".data, .obj [("city".data, .str "Rome".data)])]

/-- A text whose trimmed form is brace-delimited and is valid JSON, but
whose tool-call directive is a proper sub-object. -/
def wrappedText : Str :=
  "\x7b\"a\":\x7b\"action\":\"tool_call\",\"tool\":\"t\",\"args\":\x7b\x7d\x7d\x7d".data

/-- `JSON.parse(wrappedText)`: the wrapper object, which has no `action`
field of its own. -/
def wrappedJson : Json :=
  .obj [("a".data,
         .obj [("action".data, .str "tool_call".data), ("tool".data, .str "t".data),
               ("args".data, .obj [])])]

/-- A valid directive followed by a stray opening brace: the text's braces
are unbalanced overall. -/
def strayBraceText : Str :=
  "\x7b\"action\":\"tool_call\",\"tool\":\"t\",\"args\":\x7b\x7d\x7d \x7b".data

/-- Whether a text still contains a matched reasoning block
(`<think>` followed later by `</think>`). -/
def containsThinkBlock (s : Str) : Bool :=
  match indexOfL s thinkOpen with
  | some i => (indexOfFromL s thinkClose (i + 7)).isSome
  | none => false

/-- Whether a server's resource-listing failure gets logged. -/
def resLogged (lr : Str → Except RpcError (List Resource)) (s : Str) : Bool :=
  match lr s with
  | .ok _ => false
  | .error e => decide (e.code ≠ -32601)

/-- Resource-listing oracle for the C9 witness: server `A` reports "method
not found", server `B` fails with another code, server `C` succeeds. -/
def resCxCatalog : Str → Except RpcError (List Resource) := fun s =>
  if s == "A".data then .error ⟨-32601, "method not found".data⟩
  else if s == "B".data then .error ⟨5, "backend failure".data⟩
  else .ok [⟨"file://x".data, "demo".data⟩]

/-- The total brace count of a text: openings minus closings. -/
def braceDepth (l : Str) : Int := (l.map braceDelta).sum

/-- A minimally balanced brace word: starts with an opening brace, has
total depth zero, and every proper non-empty prefix has positive depth —
the shape of a serialized JSON object whose string literals contain no
brace characters, however deeply its sub-objects nest. -/
def minimalBalancedB (d : Str) : Bool :=
  d.take 1 == ['\x7b'] && braceDepth d == 0 &&
    (List.range d.length).all (fun k => decide (k = 0) || decide (0 < braceDepth (d.take k)))

/-- No contiguous substring of `text` parses as JSON ("no JSON-shaped
substring"). -/
def noJsonSubstring (text : Str) : Bool :=
  (List.range (text.length + 1)).all (fun s =>
    (List.range (text.length + 1 - s)).all (fun len =>
      (jsonParse (substrAt text s len)).isNone))

/-- A directive with nested objects inside `args`, for the C5 witness. -/
def nestedDirective : Str :=
  "\x7b\"action\":\"tool_call\",\"tool\":\"q\",\"args\":\x7b\"filter\":\x7b\"name\":\"John\"\x7d\x7d\x7d".data

/-- Its parse. -/
def nestedJson : Json :=
  .obj [("action".data, .str "tool_call".data), ("tool".data, .str "q".data),
        ("args".data, .obj [("filter".data, .obj [("name".data, .str "John".data)])])]

/-! ## Claim theorems -/

/-- Claim C10: `streamChat` leaves the conversation history unchanged, and
the prompt it sends to the model contains only the system turn and the new
user turn — none of the retained history, unlike `chat`.  (The single entry
in `prompts` also shows the model is invoked exactly once.) -/
theorem streamChat_frame (env : ChatEnv) (history : List Turn) (message : Str) :
    (streamChat env history message).history = history ∧
    (streamChat env history message).prompts =
      [[systemTurn env, ⟨.user, message⟩]] :=
  ⟨rfl, rfl⟩

/-- Claim C4: on the spec's worked example, `detect` returns true and
`extract` returns the invocation with tool `get_current_weather` and args
`{city: "Rome"}`; stripping the surrounding prose yields the same
extraction result. -/
theorem rome_example_detect_extract :
    isToolCall romeText = true ∧
    parseToolCall romeText = .ok romeJson ∧
    jsonGet romeJson "tool".data = some (.str "get_current_weather".data) ∧
    jsonGet romeJson "args".data = some (.obj [("city".data, .str "Rome".data)]) ∧
    isToolCall romeBare = true ∧
    parseToolCall romeBare = .ok romeJson :=
  ⟨rfl, rfl, rfl, rfl, rfl, rfl⟩

/-- Backend A's `search` tool. -/
def searchToolA : Tool := ⟨"search".data, "backend A search".data⟩

/-- Backend B's `search` tool. -/
def searchToolB : Tool := ⟨"search".data, "backend B search".data⟩

/-- Catalog oracle: backends `A` and `B` each expose a `search` tool. -/
def collidingCatalog : Str → Except Unit (List Tool) := fun s =>
  if s == "A".data then .ok [searchToolA]
  else if s == "B".data then .ok [searchToolB]
  else .error ()

/-- The registry after discovering `A` then `B`. -/
def collidingRegistry : ToolMap :=
  loadAllTools ["A".data, "B".data] collidingCatalog []

/-- Claim C1 counterexample: with backends `A` then `B` each registering
`search`, the plain resolve indeed returns B's descriptor (discovered
last), but the backend-pinned resolve for backend `A` fails with NotFound
instead of returning A's descriptor: the registry is keyed by tool name
only, so B's registration overwrote A's entirely, and the pinned variant
searches the surviving values.  This refutes "resolve(toolName, backendId)
still returns the pinned backend's descriptor regardless of discovery
order". -/
theorem pinned_resolve_collision_cx :
    callToolLookup collidingRegistry "search".data = some ⟨"B".data, searchToolB⟩ ∧
    callToolOnServerLookup collidingRegistry "A".data "search".data = none :=
  ⟨rfl, rfl⟩

/-- Claim C2 counterexample: eleven consecutive `chat` calls that all take
the tool-failure path leave the conversation history at 22 entries — the
catch block appends two entries per turn and never trims, so the ≤ 20 cap
is violated as soon as a failing turn starts from a full history. -/
theorem history_cap_cx :
    (runChats envToolFail [] (List.replicate 11 "hi".data)).length = 22 ∧
    ¬(runChats envToolFail [] (List.replicate 11 "hi".data)).length ≤ 20 :=
  ⟨rfl, by decide⟩

/-- Claim C3 counterexample: on `wrappedText`, `detect` returns true (the
anchor scan finds and validates the embedded directive), but `extract`
tries the whole trimmed message first — it is brace-delimited valid JSON —
and returns the unvalidated wrapper object, which has no `action` field at
all, hence is not a well-formed ToolInvocationRequest. -/
theorem detect_extract_mismatch_cx :
    isToolCall wrappedText = true ∧
    parseToolCall wrappedText = .ok wrappedJson ∧
    isValidToolCall wrappedJson = false ∧
    jsonGet wrappedJson "action".data = none :=
  ⟨rfl, rfl, rfl, rfl⟩

/-- Claim C6 counterexample: `strayBraceText` has unbalanced braces (three
opening, two closing), yet `detect` returns true and `extract` succeeds —
the balanced directive before the stray brace is found by the anchor scan.
This refutes the claim's parenthetical "in particular any text with
unbalanced braces". -/
theorem unbalanced_braces_cx :
    strayBraceText.count '\x7b' = 3 ∧
    strayBraceText.count '\x7d' = 2 ∧
    isToolCall strayBraceText = true ∧
    parseToolCall strayBraceText = .ok tcJson :=
  ⟨rfl, rfl, rfl, rfl⟩

/-- Claim C8 counterexample: a tool-augmented turn whose raw second reply is
`splicedReply`: the non-greedy removal of the first matched block splices
the leftover `<t` and `hink>abc</think>` into `finalResponse =
"<think>abc</think>"`, which still contains a fully matched reasoning
block.  This refutes "finalResponse contains no reasoning-markup text". -/
theorem think_strip_splice_cx :
    (chat envSplice [] "hi".data).result =
      .toolOk (some (.str "t".data)) "42".data "<think>abc</think>".data tcDirective ∧
    containsThinkBlock "<think>abc</think>".data = true :=
  ⟨rfl, rfl⟩

/-- The trimmed history never exceeds the 20-entry cap. -/
lemma trimHistory_length_le (h : List Turn) : (trimHistory h).length ≤ 20 := by
  unfold trimHistory
  split
  · simp only [List.length_drop]
    omega
  · omega

/-- Claim C2 (amended): after any `chat` return that is not a tool-failure
error result, the history has at most 20 entries; a tool-failure turn
appends its two entries without trimming, so the history grows to exactly
two more than before (and can exceed the cap). -/
theorem chat_history_amended (env : ChatEnv) (history : List Turn) (message : Str) :
    ((∀ e raw, (chat env history message).result ≠ ChatResult.err e raw) →
        (chat env history message).history.length ≤ 20) ∧
    (∀ e raw, (chat env history message).result = ChatResult.err e raw →
        (chat env history message).history.length = history.length + 2) := by
  simp only [chat]
  split
  · split
    · split
      · exact ⟨fun _ => trimHistory_length_le _, fun e raw hc => by simp at hc⟩
      · refine ⟨fun hne => absurd rfl (hne _ _), fun e raw _ => ?_⟩
        simp [List.length_append]
    · refine ⟨fun hne => absurd rfl (hne _ _), fun e raw _ => ?_⟩
      simp [List.length_append]
  · exact ⟨fun _ => trimHistory_length_le _, fun e raw hc => by simp at hc⟩

/-- Witness for C2 (amended): a concrete failing turn from an empty history
ends with exactly 2 entries. -/
theorem chat_history_amended_witness :
    (chat envToolFail [] "hi".data).history.length = List.length ([] : List Turn) + 2 :=
  (chat_history_amended envToolFail [] "hi".data).2
    ("Tool call failed: boom".data) tcDirective rfl

/-- Claim C7: when the first reply classifies as a tool directive, extraction
succeeds, and the tool invocation fails with message `emsg`, `chat` returns
the structured `{error: "Tool call failed: <emsg>", rawResponse: firstReply}`
value (the error is a returned result, not an exception — `chat` is total),
appends the user turn and an `Error: <emsg>` assistant turn to the history,
and sends exactly one prompt to the model: it is not re-prompted. -/
theorem chat_tool_failure (env : ChatEnv) (history : List Turn) (message : Str)
    (toolCall : Json) (emsg : Str)
    (hdet : isToolCall (env.model (systemTurn env :: history ++ [⟨.user, message⟩])) = true)
    (hparse : parseToolCall (env.model (systemTurn env :: history ++ [⟨.user, message⟩])) =
      .ok toolCall)
    (hfail : env.callTool (jsonGet toolCall "tool".data) (jsonGet toolCall "args".data) =
      .error emsg) :
    chat env history message =
      ⟨.err ("Tool call failed: ".data ++ emsg)
            (env.model (systemTurn env :: history ++ [⟨.user, message⟩])),
       history ++ [⟨.user, message⟩, ⟨.assistant, "Error: ".data ++ emsg⟩],
       [systemTurn env :: history ++ [⟨.user, message⟩]]⟩ := by
  simp only [chat, hdet, if_true, hparse, hfail]

/-- Witness for C7: the concrete failing environment takes exactly that
shape. -/
theorem chat_tool_failure_witness :
    isToolCall tcDirective = true ∧
    chat envToolFail [] "hi".data =
      ⟨.err ("Tool call failed: ".data ++ "boom".data) tcDirective,
       [⟨.user, "hi".data⟩, ⟨.assistant, "Error: ".data ++ "boom".data⟩],
       [[systemTurn envToolFail, ⟨.user, "hi".data⟩]]⟩ :=
  ⟨rfl, chat_tool_failure envToolFail [] "hi".data tcJson "boom".data rfl rfl rfl⟩

/-- Claim C8 (amended): on a tool-augmented turn the returned
`finalResponse` equals the second model reply with every matched
`<think>…</think>` block removed by the global non-greedy replace and the
surrounding whitespace trimmed.  (The removal can splice the remaining text
into new marker occurrences, so freedom from reasoning markup is NOT
guaranteed — see the counterexample.) -/
theorem chat_tool_success_final (env : ChatEnv) (history : List Turn) (message : Str)
    (toolCall : Json) (ser : Str)
    (hdet : isToolCall (env.model (systemTurn env :: history ++ [⟨.user, message⟩])) = true)
    (hparse : parseToolCall (env.model (systemTurn env :: history ++ [⟨.user, message⟩])) =
      .ok toolCall)
    (hok : env.callTool (jsonGet toolCall "tool".data) (jsonGet toolCall "args".data) =
      .ok ser) :
    (chat env history message).result =
      .toolOk (jsonGet toolCall "tool".data) ser
        (trimL (stripThink (env.model
          ((systemTurn env :: history ++ [⟨.user, message⟩]) ++
           [⟨.assistant, env.model (systemTurn env :: history ++ [⟨.user, message⟩])⟩,
            ⟨.user, replaceFirst env.followUp "\x7bTOOL_RESULT\x7d".data ser⟩]))))
        (env.model (systemTurn env :: history ++ [⟨.user, message⟩])) := by
  simp only [chat, hdet, if_true, hparse, hok]

/-- Witness for C8 (amended): the splice environment takes that shape. -/
theorem chat_tool_success_final_witness :
    isToolCall tcDirective = true ∧
    (chat envSplice [] "hi".data).result =
      .toolOk (jsonGet tcJson "tool".data) "42".data
        (trimL (stripThink (envSplice.model
          ((systemTurn envSplice :: [] ++ [⟨.user, "hi".data⟩]) ++
           [⟨.assistant, envSplice.model (systemTurn envSplice :: [] ++ [⟨.user, "hi".data⟩])⟩,
            ⟨.user, replaceFirst envSplice.followUp "\x7bTOOL_RESULT\x7d".data "42".data⟩]))))
        (envSplice.model (systemTurn envSplice :: [] ++ [⟨.user, "hi".data⟩])) :=
  ⟨rfl, chat_tool_success_final envSplice [] "hi".data tcJson "42".data rfl rfl rfl⟩

/-- Classification success implies the three field conditions the code
tests for. -/
lemma isValidToolCall_spec (j : Json) (h : isValidToolCall j = true) :
    jsonGet j "action".data = some (.str "tool_call".data) ∧
    jsTruthy (jsonGet j "tool".data) = true ∧
    (jsonGet j "args".data).isSome = true := by
  unfold isValidToolCall at h
  rw [Bool.and_eq_true, Bool.and_eq_true] at h
  obtain ⟨⟨h1, h2⟩, h3⟩ := h
  refine ⟨?_, h2, h3⟩
  revert h1
  split
  · next s heq => intro hbeq; rw [heq, eq_of_beq hbeq]
  · intro hfalse; exact absurd hfalse (by simp)

/-- Claim C3 (amended): on every text on which `detect` returns true and
whose trimmed form is not itself brace-delimited, `extract` succeeds and
returns an invocation whose `action` field is the `tool_call` sentinel,
whose `tool` field is truthy (in particular non-empty), and whose `args`
field is present.  (When the trimmed text IS brace-delimited, `extract`
takes its unguarded whole-message branch first and can return a different,
unvalidated object or throw — see the counterexample.) -/
theorem detect_implies_extract_wf (text : Str)
    (hdet : isToolCall text = true)
    (hnw : (((trimL text).take 1 == ['\x7b']) &&
            ((trimL text).reverse.take 1 == ['\x7d'])) = false) :
    ∃ j, parseToolCall text = .ok j ∧
      jsonGet j "action".data = some (.str "tool_call".data) ∧
      jsTruthy (jsonGet j "tool".data) = true ∧
      (jsonGet j "args".data).isSome = true := by
  have hwf : wholeFallback text = false := by
    simp only [wholeFallback, hnw, Bool.false_eq_true, if_false]
  unfold isToolCall at hdet
  cases hf : findToolCallJson text with
  | none =>
    simp only [hf, hwf] at hdet
    exact absurd hdet (by simp)
  | some jt =>
    simp only [hf] at hdet
    cases hp : jsonParse jt with
    | none =>
      simp only [hp, hwf] at hdet
      exact absurd hdet (by simp)
    | some parsed =>
      simp only [hp] at hdet
      refine ⟨parsed, ?_, isValidToolCall_spec parsed hdet⟩
      simp only [parseToolCall, hnw, Bool.false_eq_true, if_false, hf, hp]

/-- Witness for C3 (amended): the Rome example text satisfies both
hypotheses and extracts a well-formed invocation. -/
theorem detect_implies_extract_wf_witness :
    isToolCall romeText = true ∧
    ∃ j, parseToolCall romeText = .ok j ∧
      jsonGet j "action".data = some (.str "tool_call".data) ∧
      jsTruthy (jsonGet j "tool".data) = true ∧
      (jsonGet j "args".data).isSome = true :=
  ⟨rfl, detect_implies_extract_wf romeText rfl rfl⟩

/-- Claim C1 (amended): for every pair of distinct backends each exposing a
tool of the same name, discovered in order `[A, B]`: the plain resolve
returns the descriptor of the backend discovered last, and the
backend-pinned resolve succeeds only for that last backend — for the
earlier backend it fails with NotFound (its registration was overwritten
in the name-keyed map), not with its own descriptor. -/
theorem resolve_collision_last_wins (A B n : Str) (ta tb : Tool)
    (listTools : Str → Except Unit (List Tool))
    (hAB : (A == B) = false)
    (hA : listTools A = .ok [ta]) (hB : listTools B = .ok [tb])
    (hna : ta.name = n) (hnb : tb.name = n) :
    callToolLookup (loadAllTools [A, B] listTools []) n = some ⟨B, tb⟩ ∧
    callToolOnServerLookup (loadAllTools [A, B] listTools []) B n = some ⟨B, tb⟩ ∧
    callToolOnServerLookup (loadAllTools [A, B] listTools []) A n = none := by
  have hreg : loadAllTools [A, B] listTools [] = [(n, ⟨B, tb⟩)] := by
    simp [loadAllTools, hA, hB, mapSet, hna, hnb]
  have hBA : (B == A) = false := by
    rw [beq_eq_false_iff_ne] at hAB ⊢
    exact fun h => hAB h.symm
  refine ⟨?_, ?_, ?_⟩
  · simp [hreg, callToolLookup, mapGet]
  · simp [hreg, callToolOnServerLookup, hnb]
  · simp [hreg, callToolOnServerLookup, hnb, hBA]

/-- Witness for C1 (amended): the concrete colliding `search` registry. -/
theorem resolve_collision_last_wins_witness :
    callToolLookup (loadAllTools ["A".data, "B".data] collidingCatalog []) "search".data =
      some ⟨"B".data, searchToolB⟩ ∧
    callToolOnServerLookup (loadAllTools ["A".data, "B".data] collidingCatalog [])
      "B".data "search".data = some ⟨"B".data, searchToolB⟩ ∧
    callToolOnServerLookup (loadAllTools ["A".data, "B".data] collidingCatalog [])
      "A".data "search".data = none :=
  resolve_collision_last_wins "A".data "B".data "search".data searchToolA searchToolB
    collidingCatalog rfl rfl rfl rfl rfl

/-- Entries of a JS-`Map` `set` are old entries or the new binding. -/
lemma mem_mapSet {α : Type} (m : List (Str × α)) (k : Str) (v : α) (q : Str × α)
    (hq : q ∈ mapSet m k v) : q ∈ m ∨ q = (k, v) := by
  unfold mapSet at hq
  split at hq
  · obtain ⟨p, hp, hfq⟩ := List.mem_map.mp hq
    by_cases h : (p.1 == k) = true
    · right
      rw [← hfq, if_pos h]
    · left
      rw [← hfq, if_neg h]
      exact hp
  · rcases List.mem_append.mp hq with h | h
    · left; exact h
    · right; simpa using h

/-- Registering one server's resources introduces only entries owned by
that server. -/
lemma foldl_mapSet_serverName (rs : List Resource) (c sn : Str) (res0 : ResourceMap)
    (h0 : ∀ p ∈ res0, p.2.serverName ≠ sn) (hc : c ≠ sn) :
    ∀ p ∈ rs.foldl (fun m r => mapSet m r.uri ⟨c, r⟩) res0, p.2.serverName ≠ sn := by
  induction rs generalizing res0 with
  | nil => exact h0
  | cons r rs ih =>
    simp only [List.foldl_cons]
    apply ih
    intro p hp
    rcases mem_mapSet _ _ _ _ hp with h | h
    · exact h0 p h
    · rw [h]; exact hc

/-- One step of the resource-refresh fold. -/
lemma loadAllResources_cons (c : Str) (cs : List Str)
    (lr : Str → Except RpcError (List Resource)) (res0 : ResourceMap) (log0 : List Str) :
    loadAllResources (c :: cs) lr res0 log0 =
      match lr c with
      | .ok rs => loadAllResources cs lr (rs.foldl (fun m r => mapSet m r.uri ⟨c, r⟩) res0) log0
      | .error e =>
        if e.code ≠ -32601 then loadAllResources cs lr res0 (log0 ++ [c])
        else loadAllResources cs lr res0 log0 := by
  cases hc : lr c with
  | ok rs => simp [loadAllResources, hc]
  | error e =>
    by_cases h : e.code = -32601
    · simp [loadAllResources, hc, h]
    · simp [loadAllResources, hc, h]

/-- A server whose listing never succeeds owns no entry of the final
resource map. -/
lemma loadAllResources_res_serverNames (clients : List Str)
    (lr : Str → Except RpcError (List Resource)) (sn : Str) :
    ∀ res0 log0, (∀ p ∈ res0, p.2.serverName ≠ sn) → (∀ rs, lr sn ≠ .ok rs) →
    ∀ p ∈ (loadAllResources clients lr res0 log0).1, p.2.serverName ≠ sn := by
  induction clients with
  | nil =>
    intro res0 log0 h0 _ p hp
    exact h0 p hp
  | cons c cs ih =>
    intro res0 log0 h0 hsn p hp
    cases hc : lr c with
    | ok rs =>
      simp only [loadAllResources_cons, hc] at hp
      have hcsn : c ≠ sn := fun h => hsn rs (h ▸ hc)
      exact ih _ log0 (foldl_mapSet_serverName rs c sn res0 h0 hcsn) hsn p hp
    | error e =>
      simp only [loadAllResources_cons, hc] at hp
      split at hp
      · exact ih _ _ h0 hsn p hp
      · exact ih _ _ h0 hsn p hp

/-- The error log produced by the resource refresh: exactly the servers
whose listing failed with a code other than `-32601`, in order. -/
lemma loadAllResources_log (clients : List Str)
    (lr : Str → Except RpcError (List Resource)) :
    ∀ res0 log0, (loadAllResources clients lr res0 log0).2 =
      log0 ++ clients.filter (resLogged lr) := by
  induction clients with
  | nil => intro res0 log0; simp [loadAllResources]
  | cons c cs ih =>
    intro res0 log0
    cases hc : lr c with
    | ok rs =>
      simp only [loadAllResources_cons, hc]
      rw [ih]
      simp [List.filter_cons, resLogged, hc]
    | error e =>
      simp only [loadAllResources_cons, hc]
      by_cases h : e.code = -32601
      · rw [if_neg (not_not_intro h), ih]
        simp [List.filter_cons, resLogged, hc, h]
      · rw [if_pos h, ih]
        simp [List.filter_cons, resLogged, hc, h]

/-- The resource map only depends on the servers whose listing succeeded:
every failure is skipped and the fold continues. -/
lemma loadAllResources_res_ok_only (lr : Str → Except RpcError (List Resource)) :
    ∀ (clients : List Str) (res0 : ResourceMap) (log0 log1 : List Str),
      (loadAllResources clients lr res0 log0).1 =
      (loadAllResources (clients.filter (fun s => (lr s).isOk)) lr res0 log1).1 := by
  intro clients
  induction clients with
  | nil => intro res0 log0 log1; simp [loadAllResources]
  | cons c cs ih =>
    intro res0 log0 log1
    cases hc : lr c with
    | ok rs =>
      have hok : (lr c).isOk = true := by rw [hc]; rfl
      have hfil : List.filter (fun s => (lr s).isOk) (c :: cs) =
          c :: List.filter (fun s => (lr s).isOk) cs := by
        simp [List.filter_cons, hok]
      rw [hfil]
      simp only [loadAllResources_cons, hc]
      exact ih _ log0 log1
    | error e =>
      have hfil : List.filter (fun s => (lr s).isOk) (c :: cs) =
          List.filter (fun s => (lr s).isOk) cs := by
        simp [List.filter_cons, hc, Except.isOk, Except.toBool]
      rw [hfil]
      simp only [loadAllResources_cons, hc]
      split
      · exact ih _ _ log1
      · exact ih _ _ log1

/-- Claim C9: during a resource refresh, a backend failing with code
`-32601` ("method not supported") never makes the refresh raise (the
refresh is a total function by construction): that backend is skipped
silently — its reported resource list is empty and it is not logged —
while a backend failing with any other code is logged; and every failure
is non-fatal: the resulting resource map is the one obtained from the
successfully-listed backends alone. -/
theorem loadAllResources_c9 (clients : List Str)
    (lr : Str → Except RpcError (List Resource)) :
    (∀ sn e, lr sn = .error e → e.code = -32601 →
        getServerResources (loadAllResources clients lr [] []).1 sn = [] ∧
        sn ∉ (loadAllResources clients lr [] []).2) ∧
    (∀ sn e, sn ∈ clients → lr sn = .error e → e.code ≠ -32601 →
        sn ∈ (loadAllResources clients lr [] []).2) ∧
    (loadAllResources clients lr [] []).1 =
      (loadAllResources (clients.filter (fun s => (lr s).isOk)) lr [] []).1 := by
  refine ⟨?_, ?_, loadAllResources_res_ok_only lr clients [] [] []⟩
  · intro sn e hsn hcode
    constructor
    · unfold getServerResources
      have hall := loadAllResources_res_serverNames clients lr sn [] []
        (by intro p hp; simp at hp) (by intro rs h; rw [hsn] at h; exact Except.noConfusion h)
      rw [List.filter_eq_nil_iff.mpr (by
        intro p hp hbeq
        exact hall p hp (eq_of_beq hbeq))]
      rfl
    · rw [loadAllResources_log]
      intro hmem
      have := (List.mem_filter.mp (by simpa using hmem)).2
      rw [resLogged, hsn] at this
      simp [hcode] at this
  · intro sn e hmem hsn hcode
    rw [loadAllResources_log]
    simp only [List.nil_append]
    exact List.mem_filter.mpr ⟨hmem, by rw [resLogged, hsn]; simpa using hcode⟩

/-- Witness for C9: on the concrete scenario, `A` ends with no resources and
no log entry, and `B` is logged. -/
theorem loadAllResources_c9_witness :
    getServerResources
      (loadAllResources ["A".data, "B".data, "C".data] resCxCatalog [] []).1 "A".data = [] ∧
    "A".data ∉ (loadAllResources ["A".data, "B".data, "C".data] resCxCatalog [] []).2 ∧
    "B".data ∈ (loadAllResources ["A".data, "B".data, "C".data] resCxCatalog [] []).2 :=
  ⟨((loadAllResources_c9 ["A".data, "B".data, "C".data] resCxCatalog).1
      "A".data ⟨-32601, "method not found".data⟩ rfl rfl).1,
   ((loadAllResources_c9 ["A".data, "B".data, "C".data] resCxCatalog).1
      "A".data ⟨-32601, "method not found".data⟩ rfl rfl).2,
   (loadAllResources_c9 ["A".data, "B".data, "C".data] resCxCatalog).2.1
      "B".data ⟨5, "backend failure".data⟩ (by simp) rfl (by decide)⟩

lemma braceDepth_nil : braceDepth [] = 0 := rfl

lemma braceDepth_cons (x : Char) (xs : Str) :
    braceDepth (x :: xs) = braceDelta x + braceDepth xs := by
  simp [braceDepth]

/-- The balanced-brace loop, started on a minimally balanced word followed
by arbitrary trailing text, stops exactly at the word's final (matching)
closing brace. -/
lemma braceLoop_exact (d : Str) : ∀ (rest : Str) (c : Int) (i : Nat), d ≠ [] →
    (∀ k, 1 ≤ k → k < d.length → c + braceDepth (d.take k) ≠ 0) →
    c + braceDepth d = 0 →
    braceLoop (d ++ rest) c i = some (i + d.length - 1) := by
  induction d with
  | nil => intro rest c i hne; exact absurd rfl hne
  | cons x xs ih =>
    intro rest c i _ hpre hfin
    rw [List.cons_append]
    simp only [braceLoop]
    by_cases hxs : xs = []
    · subst hxs
      have h0 : c + braceDelta x = 0 := by
        rw [braceDepth_cons, braceDepth_nil] at hfin
        omega
      rw [if_pos h0]
      simp
    · have h1 : c + braceDelta x ≠ 0 := by
        have := hpre 1 (Nat.le_refl 1) (by
          simp only [List.length_cons]
          have : xs.length ≠ 0 := fun h => hxs (List.length_eq_zero.mp h)
          omega)
        rw [show (x :: xs).take 1 = [x] from rfl, braceDepth_cons, braceDepth_nil] at this
        omega
      rw [if_neg h1]
      have hpre2 : ∀ k, 1 ≤ k → k < xs.length →
          (c + braceDelta x) + braceDepth (xs.take k) ≠ 0 := by
        intro k hk1 hk2
        have := hpre (k + 1) (by omega) (by simp only [List.length_cons]; omega)
        rw [List.take_succ_cons, braceDepth_cons] at this
        omega
      have hfin2 : (c + braceDelta x) + braceDepth xs = 0 := by
        rw [braceDepth_cons] at hfin
        omega
      rw [ih rest (c + braceDelta x) (i + 1) hxs hpre2 hfin2]
      congr 1
      simp only [List.length_cons]
      have : xs.length ≠ 0 := fun h => hxs (List.length_eq_zero.mp h)
      omega

lemma minimalBalancedB_spec (d : Str) (h : minimalBalancedB d = true) :
    d ≠ [] ∧ braceDepth d = 0 ∧
    ∀ k, 1 ≤ k → k < d.length → braceDepth (d.take k) ≠ 0 := by
  unfold minimalBalancedB at h
  rw [Bool.and_eq_true, Bool.and_eq_true] at h
  obtain ⟨⟨h1, h2⟩, h3⟩ := h
  have hne : d ≠ [] := by
    intro hd
    rw [hd] at h1
    simp at h1
  refine ⟨hne, by simpa using eq_of_beq h2, ?_⟩
  intro k hk1 hk2
  have := List.all_eq_true.mp h3 k (List.mem_range.mpr hk2)
  rw [Bool.or_eq_true] at this
  rcases this with h | h
  · exact absurd (of_decide_eq_true h) (by omega)
  · have := of_decide_eq_true h
    omega

/-- Claim C5: for every text `pre ++ d ++ post` in which the anchor search
locates the directive `d` at position `pre.length`, where `d` is a
minimally balanced brace word — in particular a directive whose `args`
contains arbitrarily nested JSON objects — the balanced-brace scan stops
exactly at `d`'s matching outer closing brace, so the candidate substring
handed to the parser is the whole directive `d`, and `detect`/`extract`
operate on it: `detect` returns true and `extract` returns `d`'s parse. -/
theorem braceScan_selects_directive (pre d post : Str) (v : Json)
    (hanchor : indexOfL (pre ++ d ++ post) toolCallAnchor1 = some pre.length)
    (hmb : minimalBalancedB d = true)
    (hparse : jsonParse d = some v)
    (hvalid : isValidToolCall v = true)
    (hnw : (((trimL (pre ++ d ++ post)).take 1 == ['\x7b']) &&
            ((trimL (pre ++ d ++ post)).reverse.take 1 == ['\x7d'])) = false) :
    findToolCallJson (pre ++ d ++ post) = some d ∧
    isToolCall (pre ++ d ++ post) = true ∧
    parseToolCall (pre ++ d ++ post) = .ok v := by
  obtain ⟨hne, hdep, hpref⟩ := minimalBalancedB_spec d hmb
  have hstart : findStartIndex (pre ++ d ++ post) = some pre.length := by
    unfold findStartIndex
    rw [hanchor]
  have hdrop : (pre ++ d ++ post).drop pre.length = d ++ post := by
    rw [List.append_assoc, List.drop_left]
  have hscan : braceScanEnd (pre ++ d ++ post) pre.length =
      some (pre.length + d.length - 1) := by
    unfold braceScanEnd
    rw [hdrop]
    exact braceLoop_exact d post 0 pre.length hne
      (by intro k hk1 hk2; simpa using hpref k hk1 hk2) (by simpa using hdep)
  have hlen1 : 1 ≤ d.length := by
    cases d with
    | nil => exact absurd rfl hne
    | cons a as => simp
  have hsub : substrAt (pre ++ d ++ post) pre.length
      (pre.length + d.length - 1 + 1 - pre.length) = d := by
    have hl : pre.length + d.length - 1 + 1 - pre.length = d.length := by omega
    rw [hl]
    unfold substrAt
    rw [hdrop, List.take_left]
  have hfind : findToolCallJson (pre ++ d ++ post) = some d := by
    unfold findToolCallJson
    simp only [hstart, hscan, hsub]
  refine ⟨hfind, ?_, ?_⟩
  · unfold isToolCall
    simp only [hfind, hparse, hvalid]
  · simp only [parseToolCall, hnw, Bool.false_eq_true, if_false, hfind, hparse]

set_option maxRecDepth 4000 in
/-- Witness for C5: prose around a directive whose `args` holds the nested
object `\x7b"filter": \x7b"name": "John"\x7d\x7d`. -/
theorem braceScan_selects_directive_witness :
    findToolCallJson ("Call: ".data ++ nestedDirective ++ " done".data) =
      some nestedDirective ∧
    isToolCall ("Call: ".data ++ nestedDirective ++ " done".data) = true ∧
    parseToolCall ("Call: ".data ++ nestedDirective ++ " done".data) = .ok nestedJson :=
  braceScan_selects_directive "Call: ".data nestedDirective " done".data nestedJson
    rfl rfl rfl rfl rfl

lemma noJsonSubstring_spec (text : Str) (h : noJsonSubstring text = true) :
    ∀ s len, s + len ≤ text.length → jsonParse (substrAt text s len) = none := by
  intro s len hsl
  have hs := List.all_eq_true.mp h s (List.mem_range.mpr (by omega))
  have hl := List.all_eq_true.mp hs len (List.mem_range.mpr (by omega))
  exact Option.isNone_iff_eq_none.mp hl

lemma dropWhile_eq_drop (p : Char → Bool) (l : Str) :
    ∃ a, a ≤ l.length ∧ l.dropWhile p = l.drop a := by
  induction l with
  | nil => exact ⟨0, by simp, rfl⟩
  | cons x xs ih =>
    by_cases hx : p x = true
    · obtain ⟨a, ha, hd⟩ := ih
      refine ⟨a + 1, by simp only [List.length_cons]; omega, ?_⟩
      rw [List.dropWhile_cons, if_pos hx, List.drop_succ_cons, hd]
    · refine ⟨0, by simp, ?_⟩
      rw [List.dropWhile_cons, if_neg hx, List.drop_zero]

/-- The JS `trim` yields a contiguous substring of its input. -/
lemma trimL_substr (l : Str) :
    ∃ a b, a + b ≤ l.length ∧ trimL l = substrAt l a b := by
  obtain ⟨a, ha, hd⟩ := dropWhile_eq_drop isJsTrimWs l
  obtain ⟨c, hc, hd2⟩ := dropWhile_eq_drop isJsTrimWs (l.drop a).reverse
  refine ⟨a, (l.drop a).length - c, by
    have := List.length_drop a l
    omega, ?_⟩
  unfold trimL substrAt
  rw [hd, hd2, ← List.rdrop_eq_reverse_drop_reverse, List.rdrop]

/-- The balanced-brace loop only reports indices inside the scanned span. -/
lemma braceLoop_bounds (l : Str) :
    ∀ c i j, braceLoop l c i = some j → i ≤ j ∧ j < i + l.length := by
  induction l with
  | nil =>
    intro c i j h
    exact absurd h (by simp [braceLoop])
  | cons x xs ih =>
    intro c i j h
    simp only [braceLoop] at h
    split at h
    · cases h
      exact ⟨Nat.le_refl _, by simp only [List.length_cons]; omega⟩
    · obtain ⟨h1, h2⟩ := ih _ _ _ h
      exact ⟨by omega, by simp only [List.length_cons]; omega⟩

/-- Claim C6 (amended): for every text with no JSON-shaped substring,
`detect` returns false — and it can never throw, being total by
construction (the JS body is wrapped in a catch-all) — while `extract`
fails with a thrown parse error.  Every candidate the two functions ever
hand to `JSON.parse` (the trimmed whole text, or a brace-scan selection) is
a contiguous substring, so every parse attempt fails.  (The claim's
parenthetical "in particular any text with unbalanced braces" is dropped:
see the counterexample, an unbalanced text containing a parsable
directive.) -/
theorem no_json_substring_no_detect (text : Str)
    (h : noJsonSubstring text = true) :
    isToolCall text = false ∧ ∃ e, parseToolCall text = .error e := by
  have hsub := noJsonSubstring_spec text h
  have htrim : jsonParse (trimL text) = none := by
    obtain ⟨a, b, hab, heq⟩ := trimL_substr text
    rw [heq]
    exact hsub a b hab
  have hscan : ∀ jt, findToolCallJson text = some jt → jsonParse jt = none := by
    intro jt hf
    unfold findToolCallJson at hf
    cases hs : findStartIndex text with
    | none =>
      simp only [hs] at hf
      exact absurd hf (by simp)
    | some s =>
      simp only [hs] at hf
      cases he : braceScanEnd text s with
      | none =>
        simp only [he] at hf
        exact absurd hf (by simp)
      | some e =>
        simp only [he] at hf
        have hj : jt = substrAt text s (e + 1 - s) := by
          simpa using hf.symm
        obtain ⟨hle, hlt⟩ := braceLoop_bounds (text.drop s) 0 s e he
        rw [hj]
        apply hsub
        have := List.length_drop s text
        omega
  have hwf : wholeFallback text = false := by
    simp only [wholeFallback]
    split
    · rw [htrim]
    · rfl
  constructor
  · unfold isToolCall
    cases hf : findToolCallJson text with
    | none => simpa using hwf
    | some jt =>
      simp only [hscan jt hf, hwf]
  · simp only [parseToolCall]
    split
    · rw [htrim]
      exact ⟨_, rfl⟩
    · cases hf : findToolCallJson text with
      | none => exact ⟨_, rfl⟩
      | some jt =>
        simp only [hscan jt hf]
        exact ⟨_, rfl⟩

/-- Witness for C6 (amended): a concrete text with an unmatched brace and
no JSON-shaped substring. -/
theorem no_json_substring_no_detect_witness :
    noJsonSubstring "hello \x7b world".data = true ∧
    isToolCall "hello \x7b world".data = false ∧
    ∃ e, parseToolCall "hello \x7b world".data = .error e :=
  ⟨rfl, (no_json_substring_no_detect "hello \x7b world".data rfl).1,
   (no_json_substring_no_detect "hello \x7b world".data rfl).2⟩

end Ollamaton
